import Mathlib

/-!
Verification of the rpatoolkit header-row locator and column reconciler.

The embedding models, over a scalar cell type, the two scanning
implementations of `find_header_row` (in `rpatoolkit/excel/find_header_row.py`
and `rpatoolkit/df/read_excel.py`), the column reconciliation core of
`normalize_columns` (in `rpatoolkit/df/utils.py`), and the shared name
normalizer.  Python machine strings are modelled as Lean strings; Python
string methods `str.strip` and `str.lower` are modelled over the underlying
character lists (`str.lower` is modelled on its ASCII action, leaving
non-ASCII code points unchanged).  Numeric cells are modelled with integer
values, which is enough to distinguish the blankness semantics the two
scanners use.
-/

namespace RPAToolkit

/-- A scalar spreadsheet cell: text, a number, a boolean, or an absent
(`None`) cell, following the closed variant the data model prescribes. -/
inductive Cell where
  | text (s : String)
  | num (n : Int)
  | boolean (b : Bool)
  | null
deriving DecidableEq, Repr

/-- Python whitespace characters recognised by `str.strip`. -/
def pyIsSpace (c : Char) : Bool :=
  c == ' ' || c == '\t' || c == '\n' || c == '\r' || c == '\x0b' || c == '\x0c'

/-- The ASCII upper-to-lower case table used to model Python `str.lower`. -/
def upperLowerTable : List (Char × Char) :=
  [('A', 'a'), ('B', 'b'), ('C', 'c'), ('D', 'd'), ('E', 'e'), ('F', 'f'),
   ('G', 'g'), ('H', 'h'), ('I', 'i'), ('J', 'j'), ('K', 'k'), ('L', 'l'),
   ('M', 'm'), ('N', 'n'), ('O', 'o'), ('P', 'p'), ('Q', 'q'), ('R', 'r'),
   ('S', 's'), ('T', 't'), ('U', 'u'), ('V', 'v'), ('W', 'w'), ('X', 'x'),
   ('Y', 'y'), ('Z', 'z')]

/-- Lower-case one character, as Python `str.lower` does on ASCII. -/
def pyCharLower (c : Char) : Char := (upperLowerTable.lookup c).getD c

/-- Model of Python `str.lower` (ASCII action). -/
def pyLower (s : String) : String := ⟨s.data.map pyCharLower⟩

/-- Drop leading and trailing whitespace from a character list. -/
def stripList (l : List Char) : List Char :=
  ((l.dropWhile pyIsSpace).reverse.dropWhile pyIsSpace).reverse

/-- Model of Python `str.strip`. -/
def pyStrip (s : String) : String := ⟨stripList s.data⟩

/-- Python truthiness of a cell value: empty text, zero, `False` and `None`
are falsy, everything else is truthy. -/
def Cell.truthy : Cell → Bool
  | .text s => s != ""
  | .num n => n != 0
  | .boolean b => b
  | .null => false

/-- Model of Python `str(value)` on a cell. -/
def Cell.pyStr : Cell → String
  | .text s => s
  | .num n => toString n
  | .boolean b => if b then "True" else "False"
  | .null => "None"

/-- Python truthiness of the optional `expected_keywords` argument:
`None` and the empty list are falsy. -/
def kwTruthy : Option (List String) → Bool
  | none => false
  | some l => !l.isEmpty

/-- Python truthiness of the optional `sheet_id` argument (an `int`). -/
def sheetIdTruthy : Option Int → Bool
  | none => false
  | some n => n != 0

/-- Python truthiness of the optional `sheet_name` argument. -/
def sheetNameTruthy : Option String → Bool
  | none => false
  | some s => s != ""

/-! ### The excel-variant scanner (`rpatoolkit/excel/find_header_row.py`)

`for value in row: if value: consecutive_count += 1 else: break`, and
`row_values = [str(value).strip().lower() for value in row if value]`. -/

/-- Leading run of truthy cells, stopping at the first falsy cell. -/
def consecutive_count_xl : List Cell → Nat
  | [] => 0
  | c :: rest => if c.truthy then consecutive_count_xl rest + 1 else 0

/-- The normalized values of the truthy cells of a row. -/
def row_values_xl (row : List Cell) : List String :=
  (row.filter Cell.truthy).map (fun c => pyLower (pyStrip c.pyStr))

/-- `all(keyword.lower() in row_values for keyword in expected_keywords)`. -/
def all_keywords_present_xl (keywords : List String) (row : List Cell) : Bool :=
  keywords.all (fun kw => (row_values_xl row).contains (pyLower kw))

/-- The scanning loop of the excel variant.  The loop breaks once the row
index exceeds `max_rows`, replaces the candidate on a strictly larger
consecutive count, and additionally breaks when the improving row contains
all expected keywords. -/
def xl_scan (expectedKeywords : Option (List String)) (maxRows : Nat) :
    List (List Cell) → Nat → Nat → Nat → Nat
  | [], _, _, headerRow => headerRow
  | row :: rest, i, maxConsecutive, headerRow =>
    if maxRows < i then headerRow
    else
      let isAllKeywordsPresent :=
        if kwTruthy expectedKeywords then
          all_keywords_present_xl (expectedKeywords.getD []) row
        else false
      let consecutiveCount := consecutive_count_xl row
      if maxConsecutive < consecutiveCount then
        if kwTruthy expectedKeywords && isAllKeywordsPresent then i
        else xl_scan expectedKeywords maxRows rest (i + 1) consecutiveCount i
      else xl_scan expectedKeywords maxRows rest (i + 1) maxConsecutive headerRow

/-- The excel-variant header locator on an already-decoded grid. -/
def find_header_row_xl (grid : List (List Cell)) (maxRows : Nat)
    (expectedKeywords : Option (List String)) : Nat :=
  xl_scan expectedKeywords maxRows grid 0 0 0

/-- A decoded workbook: sheets with their names, in workbook order. -/
structure Workbook where
  sheets : List (String × List (List Cell))

/-- `CalamineWorkbook.get_sheet_by_index`. -/
def Workbook.getSheetByIndex (wb : Workbook) (i : Nat) :
    Option (List (List Cell)) :=
  (wb.sheets.get? i).map Prod.snd

/-- `CalamineWorkbook.get_sheet_by_name`. -/
def Workbook.getSheetByName (wb : Workbook) (name : String) :
    Option (List (List Cell)) :=
  (wb.sheets.find? (fun p => p.1 == name)).map Prod.snd

/-- The full excel-variant `find_header_row`, including its argument
validation and sheet selection.  Mirrors the source: when `sheet_id` is
truthy the sheet at index `0` is fetched (the supplied index is not used). -/
def find_header_row_excel (wb : Workbook) (sheetId : Option Int)
    (sheetName : Option String) (maxRows : Nat)
    (expectedKeywords : Option (List String)) : Except String Nat :=
  if sheetIdTruthy sheetId && sheetNameTruthy sheetName then
    .error "sheet_id and sheet_name cannot be both specified."
  else
    let ws? :=
      if sheetIdTruthy sheetId then wb.getSheetByIndex 0
      else if sheetNameTruthy sheetName then
        wb.getSheetByName (sheetName.getD "")
      else wb.getSheetByIndex 0
    match ws? with
    | none => .error "worksheet not found"
    | some ws => .ok (xl_scan expectedKeywords maxRows ws 0 0 0)

/-! ### The df-variant scanner (`rpatoolkit/df/read_excel.py`)

Blankness is `value is not None and str(value).strip() != ""`, the keyword
values filter is `if value is not None`, and the window is applied by
`.head(max_rows)` before the loop. -/

/-- `value is not None and str(value).strip() != ""`. -/
def cell_nonblank_df : Cell → Bool
  | .null => false
  | c => pyStrip c.pyStr != ""

/-- Leading run of non-blank cells, stopping at the first blank cell. -/
def consecutive_count_df : List Cell → Nat
  | [] => 0
  | c :: rest => if cell_nonblank_df c then consecutive_count_df rest + 1 else 0

/-- The normalized values of the non-`None` cells of a row. -/
def row_values_df (row : List Cell) : List String :=
  (row.filter (fun c => c != Cell.null)).map (fun c => pyLower (pyStrip c.pyStr))

/-- `all(keyword.lower() in row_values for keyword in expected_keywords)`. -/
def all_keywords_present_df (keywords : List String) (row : List Cell) : Bool :=
  keywords.all (fun kw => (row_values_df row).contains (pyLower kw))

/-- The scanning loop of the df variant (no in-loop window check: the grid
was already truncated by `.head(max_rows)`). -/
def df_scan (expectedKeywords : Option (List String)) :
    List (List Cell) → Nat → Nat → Nat → Nat
  | [], _, _, headerRowIndex => headerRowIndex
  | row :: rest, i, maxConsecutive, headerRowIndex =>
    let allKeywordsPresent :=
      if kwTruthy expectedKeywords then
        all_keywords_present_df (expectedKeywords.getD []) row
      else false
    let consecutiveCount := consecutive_count_df row
    if maxConsecutive < consecutiveCount then
      if kwTruthy expectedKeywords && allKeywordsPresent then i
      else df_scan expectedKeywords rest (i + 1) consecutiveCount i
    else df_scan expectedKeywords rest (i + 1) maxConsecutive headerRowIndex

/-- The df-variant header locator on an already-decoded grid. -/
def find_header_row_df (grid : List (List Cell)) (maxRows : Nat)
    (expectedKeywords : Option (List String)) : Nat :=
  df_scan expectedKeywords (grid.take maxRows) 0 0 0

/-! ### A common shape for the two scanning loops -/

/-- The shared shape of `xl_scan` and `df_scan`: fold over the rows with a
row index, the running maximum and the candidate index, replacing the
candidate on strict improvement and stopping early when an improving row
satisfies `stop`. -/
def scanLoop (cnt : List Cell → Nat) (stop : List Cell → Bool) :
    List (List Cell) → Nat → Nat → Nat → Nat
  | [], _, _, hdr => hdr
  | row :: rest, i, maxC, hdr =>
    if maxC < cnt row then
      if stop row then i
      else scanLoop cnt stop rest (i + 1) (cnt row) i
    else scanLoop cnt stop rest (i + 1) maxC hdr

/-- The early-stop condition of the excel variant. -/
def xlStop (kws : Option (List String)) (row : List Cell) : Bool :=
  kwTruthy kws && all_keywords_present_xl (kws.getD []) row

/-- The early-stop condition of the df variant. -/
def dfStop (kws : Option (List String)) (row : List Cell) : Bool :=
  kwTruthy kws && all_keywords_present_df (kws.getD []) row

/-- The running maximum consecutive count of the excel variant over the
rows before index `j`. -/
def running_max_xl (grid : List (List Cell)) (j : Nat) : Nat :=
  ((grid.take j).map consecutive_count_xl).foldl Nat.max 0

/-- The running maximum consecutive count of the df variant over the rows
before index `j`. -/
def running_max_df (grid : List (List Cell)) (j : Nat) : Nat :=
  ((grid.take j).map consecutive_count_df).foldl Nat.max 0

/-! ### The name normalizer

`strip_punctuation` lives in `rpatoolkit/utils.py`, which is not part of the
available sources; it is modelled from the specification and pinned by its
test suite. -/

/-- A word character for punctuation stripping: a Unicode letter, digit or
underscore.  Non-ASCII code points are conservatively treated as word
content, which matches the behavior the test suite pins on accented
letters. -/
def isWordChar (c : Char) : Bool :=
  c.isAlphanum || c == '_' || decide (127 < c.toNat)

/-- A punctuation character: neither word content nor whitespace. -/
def isPunctChar (c : Char) : Bool := !(isWordChar c || pyIsSpace c)

/-- Replace each maximal run of punctuation characters by `repl`.  The
boolean flag records whether the previous character belonged to a
punctuation run. -/
def replaceRunsAux (repl : List Char) : List Char → Bool → List Char
  | [], _ => []
  | c :: rest, inRun =>
    if isPunctChar c then
      if inRun then replaceRunsAux repl rest true
      else repl ++ replaceRunsAux repl rest true
    else c :: replaceRunsAux repl rest false

/-- Modelled from the spec: `strip_punctuation` (from `rpatoolkit/utils.py`,
absent from the sources) replaces every maximal run of non-word,
non-whitespace characters with the replacement string and trims surrounding
whitespace from the ends of the result. -/
def strip_punctuation (text : String) (replacement : String) : String :=
  pyStrip ⟨replaceRunsAux replacement.data text.data false⟩

/-- Modelled from the spec: the Name Normalizer `normalize` (no
implementation under the sources) optionally strips punctuation, optionally
folds case, and trims whitespace from the ends. -/
def normalize (text : String) (foldCase stripPunct : Bool)
    (replacement : String) : String :=
  let t := if stripPunct then strip_punctuation text replacement else text
  let t := if foldCase then pyLower t else t
  pyStrip t

/-! ### The column reconciler (`normalize_columns` in `rpatoolkit/df/utils.py`) -/

/-- A mapping value: either a single alias string or a list of aliases
(`dict[str, list[str] | str]`). -/
inductive Aliases where
  | one (s : String)
  | many (l : List String)
deriving DecidableEq, Repr

/-- `if isinstance(possible_names, str): possible_names = [possible_names]`. -/
def Aliases.toList : Aliases → List String
  | .one s => [s]
  | .many l => l

/-- The two hard reconciliation failures: an alias claimed twice while
building the reverse mapping (`"Ambiguous mapping: '{name}' maps to both
'{prev}' and '{final}'"`), and a canonical name claimed by a second observed
column (`"Multiple columns map to the same final name '{final}'"`). -/
inductive ReconcileError where
  | ambiguousMapping (name prevFinal newFinal : String)
  | duplicateTarget (finalName : String)
deriving DecidableEq, Repr

/-- Insert the aliases of one canonical name into the reverse mapping,
failing when the lowered alias is already a key. -/
def insert_aliases (finalName : String) :
    List String → List (String × String) →
    Except ReconcileError (List (String × String))
  | [], reverseMapping => .ok reverseMapping
  | name :: rest, reverseMapping =>
    let key := pyLower name
    match reverseMapping.lookup key with
    | some prev => .error (.ambiguousMapping name prev finalName)
    | none => insert_aliases finalName rest (reverseMapping ++ [(key, finalName)])

/-- Build the reverse mapping from lowered alias to canonical name, in
mapping order. -/
def build_reverse_mapping :
    List (String × Aliases) → List (String × String) →
    Except ReconcileError (List (String × String))
  | [], reverseMapping => .ok reverseMapping
  | (finalName, possibleNames) :: rest, reverseMapping =>
    match insert_aliases finalName possibleNames.toList reverseMapping with
    | .error e => .error e
    | .ok rm => build_reverse_mapping rest rm

/-- The pre-loop column normalization pipeline: optional
`strip_punctuation(c.strip())`, then optional `c.strip().lower()`. -/
def pre_normalize (removePunctuation lowercaseColumns : Bool) (c : String) :
    String :=
  let c1 := if removePunctuation then strip_punctuation (pyStrip c) "" else c
  if lowercaseColumns then pyLower (pyStrip c1) else c1

/-- The full normalized form an observed column is looked up under: the
pre-loop pipeline followed by the loop's own `norm_col.strip().lower()`. -/
def normalize_observed (removePunctuation lowercaseColumns : Bool)
    (c : String) : String :=
  pyLower (pyStrip (pre_normalize removePunctuation lowercaseColumns c))

/-- The reconciliation loop over the zipped original and pre-normalized
column names, threading the claimed canonical names and the rename plan. -/
def reconcile_loop (reverseMapping : List (String × String)) :
    List (String × String) → List String → List (String × String) →
    Except ReconcileError (List (String × String))
  | [], _, renameDict => .ok renameDict
  | (origCol, normCol0) :: rest, usedFinal, renameDict =>
    let normCol := pyLower (pyStrip normCol0)
    match reverseMapping.lookup normCol with
    | none => reconcile_loop reverseMapping rest usedFinal renameDict
    | some finalName =>
      if usedFinal.contains finalName then .error (.duplicateTarget finalName)
      else
        reconcile_loop reverseMapping rest (usedFinal ++ [finalName])
          (if origCol != finalName then renameDict ++ [(origCol, finalName)]
           else renameDict)

/-- The column-reconciliation core of `normalize_columns`: builds the
reverse mapping, normalizes the observed column names, and returns the
rename plan (the rename dictionary applied to the frame), or the first hard
error. -/
def normalize_columns (originalCols : List String)
    (mapping : List (String × Aliases))
    (removePunctuation lowercaseColumns : Bool) :
    Except ReconcileError (List (String × String)) :=
  match build_reverse_mapping mapping [] with
  | .error e => .error e
  | .ok reverseMapping =>
    let normalizedCols :=
      originalCols.map (pre_normalize removePunctuation lowercaseColumns)
    reconcile_loop reverseMapping (originalCols.zip normalizedCols) [] []

/-- All normalized (lowered) aliases of a mapping, in insertion order. -/
def alias_keys (mapping : List (String × Aliases)) : List String :=
  mapping.flatMap (fun p => p.2.toList.map pyLower)

/-- The reverse-mapping entries a mapping produces when no alias collides. -/
def reverse_pairs (mapping : List (String × Aliases)) :
    List (String × String) :=
  mapping.flatMap (fun p => p.2.toList.map (fun n => (pyLower n, p.1)))

/-- Whether a reconciliation error is the ambiguous-mapping failure. -/
def err_is_ambiguous : ReconcileError → Bool
  | .ambiguousMapping _ _ _ => true
  | .duplicateTarget _ => false

/-- Whether a reconciliation result is an ambiguous-mapping failure. -/
def result_is_ambiguous :
    Except ReconcileError (List (String × String)) → Bool
  | .error e => err_is_ambiguous e
  | .ok _ => false

/-- Outcome equivalence of two reconciliation results: equal rename plans,
or failures of the same kind (the ambiguous failure compares only the kind,
as its reported pair of canonical names depends on mapping order). -/
def same_reconcile_outcome :
    Except ReconcileError (List (String × String)) →
    Except ReconcileError (List (String × String)) → Prop
  | .ok r, .ok r' => r = r'
  | .error (.ambiguousMapping _ _ _), .error (.ambiguousMapping _ _ _) => True
  | .error (.duplicateTarget c), .error (.duplicateTarget c') => c = c'
  | _, _ => False

/-! ### Lemmas about the scanning loops -/

theorem getD_eq_get (l : List α) (d : α) :
    ∀ (j : Nat) (h : j < l.length), l.getD j d = l.get ⟨j, h⟩ := by
  induction l with
  | nil => intro j h; simp at h
  | cons a t ih =>
    intro j h
    cases j with
    | zero => simp
    | succ n => simpa using ih n (by simpa using h)

theorem kw_and_guard (k : Option (List String)) (b : Bool) :
    (kwTruthy k && (if kwTruthy k then b else false)) = (kwTruthy k && b) := by
  cases h : kwTruthy k <;> simp [h]

theorem xl_scan_eq_scanLoop (kws : Option (List String)) (maxRows : Nat) :
    ∀ (rows : List (List Cell)) (i maxC hdr : Nat), i ≤ maxRows + 1 →
      xl_scan kws maxRows rows i maxC hdr
        = scanLoop consecutive_count_xl (xlStop kws)
            (rows.take (maxRows + 1 - i)) i maxC hdr := by
  intro rows
  induction rows with
  | nil => intro i maxC hdr _; simp [xl_scan, scanLoop]
  | cons row rest ih =>
    intro i maxC hdr hi
    by_cases hwin : maxRows < i
    · have h0 : maxRows + 1 - i = 0 := by omega
      rw [h0]
      simp only [List.take_zero]
      rw [xl_scan, if_pos hwin, scanLoop]
    · have h1 : maxRows + 1 - i = (maxRows + 1 - (i + 1)) + 1 := by omega
      rw [h1, List.take_succ_cons]
      rw [xl_scan, if_neg hwin, scanLoop]
      simp only [kw_and_guard, xlStop]
      by_cases himp : maxC < consecutive_count_xl row
      · rw [if_pos himp, if_pos himp]
        by_cases hstop :
            (kwTruthy kws && all_keywords_present_xl (kws.getD []) row) = true
        · rw [if_pos hstop, if_pos hstop]
        · rw [if_neg hstop, if_neg hstop, ih (i + 1) _ _ (by omega)]
      · rw [if_neg himp, if_neg himp, ih (i + 1) _ _ (by omega)]

theorem df_scan_eq_scanLoop (kws : Option (List String)) :
    ∀ (rows : List (List Cell)) (i maxC hdr : Nat),
      df_scan kws rows i maxC hdr
        = scanLoop consecutive_count_df (dfStop kws) rows i maxC hdr := by
  intro rows
  induction rows with
  | nil => intro i maxC hdr; simp [df_scan, scanLoop]
  | cons row rest ih =>
    intro i maxC hdr
    rw [df_scan, scanLoop]
    simp only [kw_and_guard, dfStop]
    by_cases himp : maxC < consecutive_count_df row
    · rw [if_pos himp, if_pos himp]
      by_cases hstop :
          (kwTruthy kws && all_keywords_present_df (kws.getD []) row) = true
      · rw [if_pos hstop, if_pos hstop]
      · rw [if_neg hstop, if_neg hstop, ih]
    · rw [if_neg himp, if_neg himp, ih]

theorem scanLoop_no_improve (cnt : List Cell → Nat) (stop : List Cell → Bool) :
    ∀ (L : List (List Cell)) (i maxC hdr : Nat), (∀ r ∈ L, cnt r ≤ maxC) →
      scanLoop cnt stop L i maxC hdr = hdr := by
  intro L
  induction L with
  | nil => intro i maxC hdr _; rw [scanLoop]
  | cons row rest ih =>
    intro i maxC hdr h
    rw [scanLoop, if_neg (by
      have := h row (List.mem_cons_self _ _)
      omega)]
    exact ih _ _ _ (fun r hr => h r (List.mem_cons_of_mem _ hr))

theorem scanLoop_lt (cnt : List Cell → Nat) (stop : List Cell → Bool)
    (B : Nat) :
    ∀ (L : List (List Cell)) (i maxC hdr : Nat),
      hdr < B → i + L.length ≤ B → scanLoop cnt stop L i maxC hdr < B := by
  intro L
  induction L with
  | nil => intro i maxC hdr h _; rw [scanLoop]; exact h
  | cons row rest ih =>
    intro i maxC hdr hh hlen
    simp only [List.length_cons] at hlen
    rw [scanLoop]
    by_cases himp : maxC < cnt row
    · rw [if_pos himp]
      by_cases hstop : stop row = true
      · rw [if_pos hstop]; omega
      · rw [if_neg hstop]
        exact ih (i + 1) _ _ (by omega) (by omega)
    · rw [if_neg himp]
      exact ih (i + 1) _ _ hh (by omega)

theorem scanLoop_unique_max (cnt : List Cell → Nat) (stop : List Cell → Bool)
    (hstop : ∀ r, stop r = false) :
    ∀ (L : List (List Cell)) (k i maxC hdr : Nat), k < L.length →
      maxC < cnt (L.getD k []) →
      (∀ j, j < L.length → j ≠ k → cnt (L.getD j []) < cnt (L.getD k [])) →
      scanLoop cnt stop L i maxC hdr = i + k := by
  intro L
  induction L with
  | nil => intro k i maxC hdr hk; simp at hk
  | cons row rest ih =>
    intro k i maxC hdr hk hmax hj
    cases k with
    | zero =>
      simp only [List.getD_cons_zero] at hmax hj
      rw [scanLoop, if_pos hmax, hstop row, if_neg (by simp)]
      rw [scanLoop_no_improve]
      · omega
      · intro r hr
        obtain ⟨⟨n, hn⟩, rfl⟩ := List.mem_iff_get.mp hr
        have := hj (n + 1) (by simpa using Nat.succ_lt_succ hn) (by omega)
        rw [List.getD_cons_succ, getD_eq_get rest [] n hn] at this
        omega
    | succ s =>
      simp only [List.getD_cons_succ] at hmax hj ⊢
      have hs : s < rest.length := by simpa using hk
      have hrow : cnt row < cnt (rest.getD s []) := by
        have := hj 0 (by simp) (by omega)
        simpa using this
      by_cases himp : maxC < cnt row
      · rw [scanLoop, if_pos himp, hstop row, if_neg (by simp)]
        have := ih s (i + 1) (cnt row) i hs hrow (by
          intro j hjl hjne
          have := hj (j + 1) (by simpa using Nat.succ_lt_succ hjl) (by omega)
          simpa using this)
        omega
      · rw [scanLoop, if_neg himp]
        have := ih s (i + 1) maxC hdr hs hmax (by
          intro j hjl hjne
          have := hj (j + 1) (by simpa using Nat.succ_lt_succ hjl) (by omega)
          simpa using this)
        omega

theorem scanLoop_first_stop (cnt : List Cell → Nat) (stop : List Cell → Bool) :
    ∀ (L : List (List Cell)) (k i maxC hdr : Nat), k < L.length →
      stop (L.getD k []) = true →
      ((L.take k).map cnt).foldl Nat.max maxC < cnt (L.getD k []) →
      (∀ j, j < k → stop (L.getD j []) = true →
        ¬ ((L.take j).map cnt).foldl Nat.max maxC < cnt (L.getD j [])) →
      scanLoop cnt stop L i maxC hdr = i + k := by
  intro L
  induction L with
  | nil => intro k i maxC hdr hk; simp at hk
  | cons row rest ih =>
    intro k i maxC hdr hk hstopk hmax hfirst
    cases k with
    | zero =>
      simp only [List.getD_cons_zero] at hstopk
      simp only [List.take_zero, List.map_nil, List.foldl_nil,
        List.getD_cons_zero] at hmax
      rw [scanLoop, if_pos hmax, if_pos hstopk]
      omega
    | succ s =>
      simp only [List.getD_cons_succ] at hstopk ⊢
      simp only [List.take_succ_cons, List.map_cons, List.foldl_cons] at hmax
      have hs : s < rest.length := by simpa using hk
      by_cases himp : maxC < cnt row
      · have hstop0 : stop row = false := by
          by_contra hc
          have := hfirst 0 (by omega) (by
            simpa using Bool.of_not_eq_false hc)
          simp only [List.take_zero, List.map_nil, List.foldl_nil,
            List.getD_cons_zero] at this
          exact this himp
        rw [scanLoop, if_pos himp, hstop0, if_neg (by simp)]
        have hmaxeq : Nat.max maxC (cnt row) = cnt row :=
          Nat.max_eq_right (Nat.le_of_lt himp)
        rw [hmaxeq] at hmax
        have := ih s (i + 1) (cnt row) i hs hstopk hmax (by
          intro j hjs hstopj
          have := hfirst (j + 1) (by omega) (by simpa using hstopj)
          simp only [List.take_succ_cons, List.map_cons, List.foldl_cons,
            List.getD_cons_succ, hmaxeq] at this
          exact this)
        omega
      · have hmaxeq : Nat.max maxC (cnt row) = maxC :=
          Nat.max_eq_left (Nat.le_of_not_lt himp)
        rw [hmaxeq] at hmax
        rw [scanLoop, if_neg himp]
        have := ih s (i + 1) maxC hdr hs hstopk hmax (by
          intro j hjs hstopj
          have := hfirst (j + 1) (by omega) (by simpa using hstopj)
          simp only [List.take_succ_cons, List.map_cons, List.foldl_cons,
            List.getD_cons_succ, hmaxeq] at this
          exact this)
        omega

theorem getD_take (l : List α) (n j : Nat) (d : α) (h : j < n) :
    (l.take n).getD j d = l.getD j d := by
  simp [List.getD_eq_getElem?_getD, List.getElem?_take, h]

theorem xlStop_none (r : List Cell) : xlStop none r = false := by
  simp [xlStop, kwTruthy]

theorem dfStop_none (r : List Cell) : dfStop none r = false := by
  simp [dfStop, kwTruthy]

theorem xlStop_some (ks : List String) (hks : ks ≠ []) (r : List Cell) :
    xlStop (some ks) r = all_keywords_present_xl ks r := by
  cases ks with
  | nil => exact absurd rfl hks
  | cons a t => simp [xlStop, kwTruthy]

theorem dfStop_some (ks : List String) (hks : ks ≠ []) (r : List Cell) :
    dfStop (some ks) r = all_keywords_present_df ks r := by
  cases ks with
  | nil => exact absurd rfl hks
  | cons a t => simp [dfStop, kwTruthy]

theorem find_header_row_xl_eq (grid : List (List Cell)) (maxRows : Nat)
    (kws : Option (List String)) :
    find_header_row_xl grid maxRows kws
      = scanLoop consecutive_count_xl (xlStop kws) (grid.take (maxRows + 1))
          0 0 0 := by
  rw [find_header_row_xl, xl_scan_eq_scanLoop kws maxRows grid 0 0 0 (by omega)]
  norm_num

theorem find_header_row_df_eq (grid : List (List Cell)) (maxRows : Nat)
    (kws : Option (List String)) :
    find_header_row_df grid maxRows kws
      = scanLoop consecutive_count_df (dfStop kws) (grid.take maxRows)
          0 0 0 := by
  rw [find_header_row_df, df_scan_eq_scanLoop]

theorem scan_take_unique (cnt : List Cell → Nat) (stop : List Cell → Bool)
    (hstop : ∀ r, stop r = false) (grid : List (List Cell)) (w k : Nat)
    (hk : k < min w grid.length)
    (hj : ∀ j, j < min w grid.length → j ≠ k →
      cnt (grid.getD j []) < cnt (grid.getD k [])) :
    scanLoop cnt stop (grid.take w) 0 0 0 = k := by
  have hlen : (grid.take w).length = min w grid.length := by
    simp [List.length_take]
  have hgetD : ∀ j, j < min w grid.length →
      (grid.take w).getD j [] = grid.getD j [] := by
    intro j hjw
    exact getD_take grid w j [] (lt_of_lt_of_le hjw (min_le_left _ _))
  by_cases hc : 0 < cnt (grid.getD k [])
  · have := scanLoop_unique_max cnt stop hstop (grid.take w) k 0 0 0
      (by omega) (by rw [hgetD k hk]; exact hc)
      (by
        intro j hjl hjne
        rw [hgetD k hk, hgetD j (by omega)]
        exact hj j (by omega) hjne)
    omega
  · have hck : cnt (grid.getD k []) = 0 := by omega
    have hone : min w grid.length = 1 := by
      by_contra hne
      have h2 : 2 ≤ min w grid.length := by omega
      have hpick : (if k = 0 then 1 else 0) ≠ k := by split <;> omega
      have hlt : (if k = 0 then 1 else 0) < min w grid.length := by
        split <;> omega
      have := hj _ hlt hpick
      rw [hck] at this
      exact absurd this (Nat.not_lt_zero _)
    have hk0 : k = 0 := by omega
    have := scanLoop_no_improve cnt stop (grid.take w) 0 0 0 (by
      intro r hr
      obtain ⟨a, ha⟩ := List.length_eq_one.mp (hlen.trans hone)
      rw [ha] at hr
      have hra : r = a := by simpa using hr
      have : (grid.take w).getD 0 [] = a := by rw [ha]; rfl
      rw [hra, ← this, hgetD 0 (by omega)]
      rw [hk0] at hck
      omega)
    omega

theorem scan_take_first_stop (cnt : List Cell → Nat) (stop : List Cell → Bool)
    (grid : List (List Cell)) (w i : Nat)
    (hi : i < min w grid.length)
    (hstopi : stop (grid.getD i []) = true)
    (himp : ((grid.take i).map cnt).foldl Nat.max 0 < cnt (grid.getD i []))
    (hfirst : ∀ j, j < i → stop (grid.getD j []) = true →
      ¬ ((grid.take j).map cnt).foldl Nat.max 0 < cnt (grid.getD j [])) :
    scanLoop cnt stop (grid.take w) 0 0 0 = i := by
  have hgetD : ∀ j, j < min w grid.length →
      (grid.take w).getD j [] = grid.getD j [] := by
    intro j hjw
    exact getD_take grid w j [] (lt_of_lt_of_le hjw (min_le_left _ _))
  have htake : ∀ j, j ≤ i → (grid.take w).take j = grid.take j := by
    intro j hji
    rw [List.take_take]
    congr 1
    omega
  have := scanLoop_first_stop cnt stop (grid.take w) i 0 0 0
    (by simpa [List.length_take] using hi)
    (by rw [hgetD i hi]; exact hstopi)
    (by rw [hgetD i hi, htake i (le_refl i)]; exact himp)
    (by
      intro j hji hstopj
      rw [htake j (by omega), hgetD j (by omega)]
      rw [hgetD j (by omega)] at hstopj
      exact hfirst j hji hstopj)
  omega

/-! ### Claims about the header locators -/

/-- Claim C1: with no keywords supplied, on every grid in which exactly one
scanned row `k` has strictly more leading consecutive non-blank cells than
every other scanned row, the header locator returns `k` (both variants,
each over its own scan window and blankness semantics). -/
theorem claim1_unique_max_row (grid : List (List Cell)) (maxRows k : Nat) :
    (k < min (maxRows + 1) grid.length →
      (∀ j, j < min (maxRows + 1) grid.length → j ≠ k →
        consecutive_count_xl (grid.getD j []) <
          consecutive_count_xl (grid.getD k [])) →
      find_header_row_xl grid maxRows none = k) ∧
    (k < min maxRows grid.length →
      (∀ j, j < min maxRows grid.length → j ≠ k →
        consecutive_count_df (grid.getD j []) <
          consecutive_count_df (grid.getD k [])) →
      find_header_row_df grid maxRows none = k) := by
  constructor
  · intro hk hj
    rw [find_header_row_xl_eq]
    exact scan_take_unique _ _ xlStop_none grid (maxRows + 1) k hk hj
  · intro hk hj
    rw [find_header_row_df_eq]
    exact scan_take_unique _ _ dfStop_none grid maxRows k hk hj

/-- Witness for C1 on a concrete grid whose second row has the unique
largest leading run. -/
theorem claim1_unique_max_row_witness :
    find_header_row_xl [[Cell.text "a"], [Cell.text "a", Cell.text "b"]]
        200 none = 1 ∧
    find_header_row_df [[Cell.text "a"], [Cell.text "a", Cell.text "b"]]
        200 none = 1 :=
  ⟨(claim1_unique_max_row [[Cell.text "a"], [Cell.text "a", Cell.text "b"]]
      200 1).1 (by decide) (by decide),
   (claim1_unique_max_row [[Cell.text "a"], [Cell.text "a", Cell.text "b"]]
      200 1).2 (by decide) (by decide)⟩

/-- Claim C2: on the literal grid with banner row `["Report","","",""]` and
header row `["po number","qty","date"]`, locating the header with keywords
`["po number"]` returns row index `1`, not row `0` (both variants). -/
theorem claim2_banner_vs_keyword_header :
    find_header_row_xl
        [[Cell.text "Report", Cell.text "", Cell.text "", Cell.text ""],
         [Cell.text "po number", Cell.text "qty", Cell.text "date"]]
        200 (some ["po number"]) = 1 ∧
    find_header_row_df
        [[Cell.text "Report", Cell.text "", Cell.text "", Cell.text ""],
         [Cell.text "po number", Cell.text "qty", Cell.text "date"]]
        200 (some ["po number"]) = 1 := by
  exact ⟨by decide, by decide⟩

/-- Claim C3: with a non-empty keyword set, the scan returns row `i` when
`i` is the first scanned row that both contains every keyword and strictly
improves the running maximum consecutive count; keyword rows that do not
strictly improve do not stop the scan, and rows after `i` are never
considered (the hypotheses constrain nothing beyond row `i`). -/
theorem claim3_keyword_short_circuit (grid : List (List Cell))
    (maxRows : Nat) (ks : List String) (i : Nat) (hks : ks ≠ []) :
    (i < min (maxRows + 1) grid.length →
      all_keywords_present_xl ks (grid.getD i []) = true →
      running_max_xl grid i < consecutive_count_xl (grid.getD i []) →
      (∀ j, j < i → all_keywords_present_xl ks (grid.getD j []) = true →
        ¬ running_max_xl grid j < consecutive_count_xl (grid.getD j [])) →
      find_header_row_xl grid maxRows (some ks) = i) ∧
    (i < min maxRows grid.length →
      all_keywords_present_df ks (grid.getD i []) = true →
      running_max_df grid i < consecutive_count_df (grid.getD i []) →
      (∀ j, j < i → all_keywords_present_df ks (grid.getD j []) = true →
        ¬ running_max_df grid j < consecutive_count_df (grid.getD j [])) →
      find_header_row_df grid maxRows (some ks) = i) := by
  constructor
  · intro hi hstopi himp hfirst
    rw [find_header_row_xl_eq]
    refine scan_take_first_stop _ _ grid (maxRows + 1) i hi ?_ himp ?_
    · rw [xlStop_some ks hks]
      exact hstopi
    · intro j hji hstopj
      rw [xlStop_some ks hks] at hstopj
      exact hfirst j hji hstopj
  · intro hi hstopi himp hfirst
    rw [find_header_row_df_eq]
    refine scan_take_first_stop _ _ grid maxRows i hi ?_ himp ?_
    · rw [dfStop_some ks hks]
      exact hstopi
    · intro j hji hstopj
      rw [dfStop_some ks hks] at hstopj
      exact hfirst j hji hstopj

/-- Witness for C3 on a concrete grid whose row `1` is the first
keyword-satisfying strict improvement. -/
theorem claim3_keyword_short_circuit_witness :
    find_header_row_xl
        [[Cell.text "banner"], [Cell.text "po number", Cell.text "qty"]]
        5 (some ["po number"]) = 1 ∧
    find_header_row_df
        [[Cell.text "banner"], [Cell.text "po number", Cell.text "qty"]]
        5 (some ["po number"]) = 1 :=
  ⟨(claim3_keyword_short_circuit
      [[Cell.text "banner"], [Cell.text "po number", Cell.text "qty"]]
      5 ["po number"] 1 (by decide)).1
      (by decide) (by decide) (by decide) (by decide),
   (claim3_keyword_short_circuit
      [[Cell.text "banner"], [Cell.text "po number", Cell.text "qty"]]
      5 ["po number"] 1 (by decide)).2
      (by decide) (by decide) (by decide) (by decide)⟩

/-- Claim C4: a grid exists on which the two header-locator scanners return
different row indices, so they are not extensionally equal.  The witness
grid has a cell holding the number `0`, counted as blank by the excel
variant (Python truthiness) and as non-blank by the df variant
(`str(value).strip() != ""`). -/
theorem claim4_scanners_disagree :
    ∃ grid : List (List Cell), ∃ maxRows : Nat,
      find_header_row_xl grid maxRows none
        ≠ find_header_row_df grid maxRows none :=
  ⟨[[Cell.text "a"], [Cell.num 0, Cell.text "x"]], 200, by decide⟩

/-- Counterexample to claim C5 as stated: the excel-variant locator scans
rows `0..max_rows` inclusive, so on a two-row grid with `max_rows = 1` it
returns index `1` (not `< 1` although the grid has at least `1` row), and
its result changes when the rows from index `max_rows` on are removed. -/
theorem claim5_counterexample :
    1 ≤ ([[Cell.text ""], [Cell.text "a"]] : List (List Cell)).length ∧
    ¬ find_header_row_xl [[Cell.text ""], [Cell.text "a"]] 1 none < 1 ∧
    find_header_row_xl
        (([[Cell.text ""], [Cell.text "a"]] : List (List Cell)).take 1)
        1 none
      ≠ find_header_row_xl [[Cell.text ""], [Cell.text "a"]] 1 none := by
  exact ⟨by decide, by decide, by decide⟩

/-- Claim C5 as amended: the df variant inspects only the first `max_rows`
rows (index `< max_rows`, result a function of the first `max_rows` rows),
while the excel variant inspects the first `max_rows + 1` rows (index
`≤ max_rows`, result a function of the first `max_rows + 1` rows). -/
theorem claim5_scan_window (grid : List (List Cell)) (maxRows : Nat)
    (kws : Option (List String)) (h1 : 1 ≤ maxRows) :
    find_header_row_df grid maxRows kws < maxRows ∧
    find_header_row_df grid maxRows kws
      = find_header_row_df (grid.take maxRows) maxRows kws ∧
    find_header_row_xl grid maxRows kws ≤ maxRows ∧
    find_header_row_xl grid maxRows kws
      = find_header_row_xl (grid.take (maxRows + 1)) maxRows kws := by
  refine ⟨?_, ?_, ?_, ?_⟩
  · rw [find_header_row_df_eq]
    exact scanLoop_lt _ _ maxRows _ 0 0 0 (by omega)
      (by simp only [List.length_take]; omega)
  · rw [find_header_row_df_eq, find_header_row_df_eq, List.take_take]
    norm_num
  · rw [find_header_row_xl_eq]
    have := scanLoop_lt consecutive_count_xl (xlStop kws) (maxRows + 1)
      (grid.take (maxRows + 1)) 0 0 0 (by omega)
      (by simp only [List.length_take]; omega)
    omega
  · rw [find_header_row_xl_eq, find_header_row_xl_eq, List.take_take]
    norm_num

/-- Witness for the amended C5 on a concrete three-row grid with
`max_rows = 2`. -/
theorem claim5_scan_window_witness :
    find_header_row_df [[Cell.text "a"], [Cell.text "b"], [Cell.text "c"]]
        2 none < 2 ∧
    find_header_row_df [[Cell.text "a"], [Cell.text "b"], [Cell.text "c"]]
        2 none
      = find_header_row_df
          (([[Cell.text "a"], [Cell.text "b"], [Cell.text "c"]] :
            List (List Cell)).take 2) 2 none ∧
    find_header_row_xl [[Cell.text "a"], [Cell.text "b"], [Cell.text "c"]]
        2 none ≤ 2 ∧
    find_header_row_xl [[Cell.text "a"], [Cell.text "b"], [Cell.text "c"]]
        2 none
      = find_header_row_xl
          (([[Cell.text "a"], [Cell.text "b"], [Cell.text "c"]] :
            List (List Cell)).take (2 + 1)) 2 none :=
  claim5_scan_window [[Cell.text "a"], [Cell.text "b"], [Cell.text "c"]]
    2 none (by decide)

/-- Claim C9: for every workbook and every non-zero `sheet_id`, the
excel-variant locator scans the sheet at index `0` (the supplied index is
never passed to the sheet lookup), and `sheet_id = 0` behaves exactly like
omitting `sheet_id`, including in the check that forbids supplying both
`sheet_id` and `sheet_name`. -/
theorem claim9_sheet_id_ignored (wb : Workbook) (maxRows : Nat)
    (kws : Option (List String)) :
    (∀ n : Int, n ≠ 0 →
      find_header_row_excel wb (some n) none maxRows kws
        = match wb.getSheetByIndex 0 with
          | none => .error "worksheet not found"
          | some ws => .ok (xl_scan kws maxRows ws 0 0 0)) ∧
    (∀ sheetName : Option String,
      find_header_row_excel wb (some 0) sheetName maxRows kws
        = find_header_row_excel wb none sheetName maxRows kws) := by
  constructor
  · intro n hn
    have ht : sheetIdTruthy (some n) = true := by
      simpa [sheetIdTruthy] using hn
    rw [find_header_row_excel]
    rw [ht]
    simp [sheetNameTruthy]
  · intro sheetName
    have h0 : sheetIdTruthy (some 0) = sheetIdTruthy none := by
      simp [sheetIdTruthy]
    rw [find_header_row_excel, find_header_row_excel, h0]

/-- Witness for C9: `sheet_id = 3` still scans the first sheet, and
`sheet_id = 0` together with a sheet name raises no error and selects by
name. -/
theorem claim9_sheet_id_ignored_witness :
    find_header_row_excel ⟨[("s1", [[Cell.text "a"]]), ("s2", [])]⟩
        (some 3) none 5 none = .ok 0 ∧
    find_header_row_excel ⟨[("s1", [[Cell.text "a"]]), ("s2", [])]⟩
        (some 0) (some "s2") 5 none
      = find_header_row_excel ⟨[("s1", [[Cell.text "a"]]), ("s2", [])]⟩
          none (some "s2") 5 none :=
  ⟨((claim9_sheet_id_ignored ⟨[("s1", [[Cell.text "a"]]), ("s2", [])]⟩
      5 none).1 3 (by decide)).trans (by rfl),
   (claim9_sheet_id_ignored ⟨[("s1", [[Cell.text "a"]]), ("s2", [])]⟩
      5 none).2 (some "s2")⟩

/-! ### Lemmas about association-list lookup -/

theorem lookup_eq_none_iff {α β : Type} [BEq α] [LawfulBEq α]
    (l : List (α × β)) (k : α) :
    l.lookup k = none ↔ ∀ p ∈ l, p.1 ≠ k := by
  induction l with
  | nil => simp
  | cons a t ih =>
    rcases a with ⟨ka, va⟩
    rw [List.lookup_cons]
    by_cases h : k = ka
    · subst h
      simp
    · have hb : (k == ka) = false := by simpa using h
      rw [hb]
      simp only [List.mem_cons, forall_eq_or_imp]
      rw [ih]
      have : ka ≠ k := fun hh => h hh.symm
      tauto

theorem lookup_mem {α β : Type} [BEq α] [LawfulBEq α]
    (l : List (α × β)) (k : α) (v : β) (h : l.lookup k = some v) :
    (k, v) ∈ l := by
  induction l with
  | nil => simp [List.lookup] at h
  | cons a t ih =>
    rcases a with ⟨ka, va⟩
    rw [List.lookup_cons] at h
    by_cases hk : k == ka
    · have hke : k = ka := by simpa using hk
      rw [hk] at h
      simp only [Option.some.injEq] at h
      subst hke
      subst h
      exact List.mem_cons_self _ _
    · have hb : (k == ka) = false := by simpa using hk
      rw [hb] at h
      exact List.mem_cons_of_mem _ (ih h)

theorem mem_lookup {α β : Type} [BEq α] [LawfulBEq α]
    (l : List (α × β)) (k : α) (v : β)
    (hnd : (l.map Prod.fst).Nodup) (hmem : (k, v) ∈ l) :
    l.lookup k = some v := by
  induction l with
  | nil => simp at hmem
  | cons a t ih =>
    rcases a with ⟨ka, va⟩
    simp only [List.map_cons, List.nodup_cons] at hnd
    rw [List.lookup_cons]
    rcases List.mem_cons.mp hmem with heq | hmem'
    · rw [Prod.mk.injEq] at heq
      obtain ⟨h1, h2⟩ := heq
      subst h1; subst h2
      simp
    · by_cases hk : k = ka
      · subst hk
        exact absurd (List.mem_map_of_mem Prod.fst hmem') hnd.1
      · have hb : (k == ka) = false := by simpa using hk
        rw [hb]
        exact ih hnd.2 hmem'

theorem lookup_eq_of_perm {α β : Type} [BEq α] [LawfulBEq α]
    (l l' : List (α × β)) (hperm : l.Perm l')
    (hnd : (l.map Prod.fst).Nodup) (k : α) :
    l.lookup k = l'.lookup k := by
  have hnd' : (l'.map Prod.fst).Nodup :=
    ((hperm.map Prod.fst).nodup_iff).mp hnd
  cases h : l.lookup k with
  | some v =>
    exact (mem_lookup l' k v hnd' (hperm.mem_iff.mp (lookup_mem l k v h))).symm
  | none =>
    cases h' : l'.lookup k with
    | none => rfl
    | some v =>
      have : (k, v) ∈ l := hperm.mem_iff.mpr (lookup_mem l' k v h')
      rw [mem_lookup l k v hnd this] at h
      exact absurd h (by simp)

/-! ### Lemmas about building the reverse mapping -/

theorem insert_aliases_ok (f : String) :
    ∀ (names : List String) (acc rm : List (String × String)),
      insert_aliases f names acc = .ok rm →
      rm = acc ++ names.map (fun n => (pyLower n, f)) := by
  intro names
  induction names with
  | nil =>
    intro acc rm h
    rw [insert_aliases] at h
    simp only [Except.ok.injEq] at h
    simp [h]
  | cons n rest ih =>
    intro acc rm h
    rw [insert_aliases] at h
    cases hl : acc.lookup (pyLower n) with
    | some prev => rw [hl] at h; exact absurd h (by simp)
    | none =>
      rw [hl] at h
      rw [ih _ _ h]
      simp

theorem insert_aliases_error (f : String) :
    ∀ (names : List String) (acc : List (String × String))
      (e : ReconcileError),
      insert_aliases f names acc = .error e → err_is_ambiguous e = true := by
  intro names
  induction names with
  | nil => intro acc e h; rw [insert_aliases] at h; exact absurd h (by simp)
  | cons n rest ih =>
    intro acc e h
    rw [insert_aliases] at h
    cases hl : acc.lookup (pyLower n) with
    | some prev =>
      rw [hl] at h
      simp only [Except.error.injEq] at h
      rw [← h]
      rfl
    | none =>
      rw [hl] at h
      exact ih _ _ h

theorem insert_aliases_isOk_iff (f : String) :
    ∀ (names : List String) (acc : List (String × String)),
      (acc.map Prod.fst).Nodup →
      ((insert_aliases f names acc).isOk = true ↔
        ((acc.map Prod.fst) ++ names.map pyLower).Nodup) := by
  intro names
  induction names with
  | nil =>
    intro acc hnd
    rw [insert_aliases]
    simp [Except.isOk, Except.toBool, hnd]
  | cons n rest ih =>
    intro acc hnd
    rw [insert_aliases]
    cases hl : acc.lookup (pyLower n) with
    | some prev =>
      have hmem : pyLower n ∈ acc.map Prod.fst :=
        List.mem_map_of_mem Prod.fst (lookup_mem acc (pyLower n) prev hl)
      constructor
      · intro h; exact absurd h (by simp [Except.isOk, Except.toBool])
      · intro hnodup
        exfalso
        rw [List.nodup_append] at hnodup
        exact hnodup.2.2 hmem (by simp)
    | none =>
      have hnotin : pyLower n ∉ acc.map Prod.fst := by
        rw [lookup_eq_none_iff] at hl
        intro hmem
        obtain ⟨p, hp, hp1⟩ := List.mem_map.mp hmem
        exact hl p hp hp1
      have hnd' : ((acc ++ [(pyLower n, f)]).map Prod.fst).Nodup := by
        rw [List.map_append, List.nodup_append]
        refine ⟨hnd, by simp, ?_⟩
        intro a ha hb
        simp only [List.map_cons, List.map_nil, List.mem_singleton] at hb
        subst hb
        exact hnotin ha
      rw [ih _ hnd']
      rw [List.map_append, List.append_assoc]
      simp

theorem build_reverse_mapping_ok :
    ∀ (mapping : List (String × Aliases)) (acc rm : List (String × String)),
      build_reverse_mapping mapping acc = .ok rm →
      rm = acc ++ reverse_pairs mapping := by
  intro mapping
  induction mapping with
  | nil =>
    intro acc rm h
    rw [build_reverse_mapping] at h
    simp only [Except.ok.injEq] at h
    simp [reverse_pairs, h]
  | cons p rest ih =>
    intro acc rm h
    rcases p with ⟨f, al⟩
    rw [build_reverse_mapping] at h
    cases hi : insert_aliases f al.toList acc with
    | error e => rw [hi] at h; exact absurd h (by simp)
    | ok rm2 =>
      rw [hi] at h
      rw [ih _ _ h, insert_aliases_ok f al.toList acc rm2 hi]
      simp [reverse_pairs, List.flatMap_cons, List.append_assoc]

theorem build_reverse_mapping_error :
    ∀ (mapping : List (String × Aliases)) (acc : List (String × String))
      (e : ReconcileError),
      build_reverse_mapping mapping acc = .error e →
      err_is_ambiguous e = true := by
  intro mapping
  induction mapping with
  | nil =>
    intro acc e h
    rw [build_reverse_mapping] at h
    exact absurd h (by simp)
  | cons p rest ih =>
    intro acc e h
    rcases p with ⟨f, al⟩
    rw [build_reverse_mapping] at h
    cases hi : insert_aliases f al.toList acc with
    | error e2 =>
      rw [hi] at h
      simp only [Except.error.injEq] at h
      rw [← h]
      exact insert_aliases_error f al.toList acc e2 hi
    | ok rm2 =>
      rw [hi] at h
      exact ih _ _ h

theorem build_reverse_mapping_isOk_iff :
    ∀ (mapping : List (String × Aliases)) (acc : List (String × String)),
      (acc.map Prod.fst).Nodup →
      ((build_reverse_mapping mapping acc).isOk = true ↔
        ((acc.map Prod.fst) ++ alias_keys mapping).Nodup) := by
  intro mapping
  induction mapping with
  | nil =>
    intro acc hnd
    rw [build_reverse_mapping]
    simp [Except.isOk, Except.toBool, alias_keys, hnd]
  | cons p rest ih =>
    intro acc hnd
    rcases p with ⟨f, al⟩
    rw [build_reverse_mapping]
    have hak : alias_keys ((f, al) :: rest)
        = al.toList.map pyLower ++ alias_keys rest := by
      simp [alias_keys, List.flatMap_cons]
    cases hi : insert_aliases f al.toList acc with
    | error e =>
      have hnotok : ¬ ((acc.map Prod.fst) ++ al.toList.map pyLower).Nodup := by
        intro hcon
        have := (insert_aliases_isOk_iff f al.toList acc hnd).mpr hcon
        rw [hi] at this
        exact absurd this (by simp [Except.isOk, Except.toBool])
      constructor
      · intro h; exact absurd h (by simp [Except.isOk, Except.toBool])
      · intro hnodup
        exfalso
        apply hnotok
        rw [hak, ← List.append_assoc] at hnodup
        exact hnodup.sublist (List.sublist_append_left _ _)
    | ok rm2 =>
      have hok2 : (insert_aliases f al.toList acc).isOk = true := by
        rw [hi]; rfl
      have hnd2pre := (insert_aliases_isOk_iff f al.toList acc hnd).mp hok2
      have hkeys : rm2.map Prod.fst
          = (acc.map Prod.fst) ++ al.toList.map pyLower := by
        rw [insert_aliases_ok f al.toList acc rm2 hi]
        simp [List.map_append, List.map_map, Function.comp]
      have hnd2 : (rm2.map Prod.fst).Nodup := by rw [hkeys]; exact hnd2pre
      rw [ih rm2 hnd2, hkeys, hak, List.append_assoc]

/-! ### Lemmas about the reconciliation loop -/

theorem reconcile_loop_cons_none (rm : List (String × String))
    (o n0 : String) (rest : List (String × String)) (used : List String)
    (acc : List (String × String))
    (h : rm.lookup (pyLower (pyStrip n0)) = none) :
    reconcile_loop rm ((o, n0) :: rest) used acc
      = reconcile_loop rm rest used acc := by
  simp only [reconcile_loop, h]

theorem reconcile_loop_cons_some_used (rm : List (String × String))
    (o n0 : String) (rest : List (String × String)) (used : List String)
    (acc : List (String × String)) (fn : String)
    (h : rm.lookup (pyLower (pyStrip n0)) = some fn)
    (hu : used.contains fn = true) :
    reconcile_loop rm ((o, n0) :: rest) used acc
      = .error (.duplicateTarget fn) := by
  simp only [reconcile_loop, h, if_pos hu]

theorem reconcile_loop_cons_some_new (rm : List (String × String))
    (o n0 : String) (rest : List (String × String)) (used : List String)
    (acc : List (String × String)) (fn : String)
    (h : rm.lookup (pyLower (pyStrip n0)) = some fn)
    (hu : used.contains fn = false) :
    reconcile_loop rm ((o, n0) :: rest) used acc
      = reconcile_loop rm rest (used ++ [fn])
          (if o != fn then acc ++ [(o, fn)] else acc) := by
  simp only [reconcile_loop, h]
  rw [if_neg (show ¬ used.contains fn = true by rw [hu]; simp)]

theorem reconcile_loop_error (rm : List (String × String)) :
    ∀ (pairs : List (String × String)) (used : List String)
      (acc : List (String × String)) (e : ReconcileError),
      reconcile_loop rm pairs used acc = .error e →
      err_is_ambiguous e = false := by
  intro pairs
  induction pairs with
  | nil =>
    intro used acc e h
    rw [reconcile_loop] at h
    exact absurd h (by simp)
  | cons p rest ih =>
    intro used acc e h
    rcases p with ⟨o, n0⟩
    cases hl : rm.lookup (pyLower (pyStrip n0)) with
    | none =>
      rw [reconcile_loop_cons_none rm o n0 rest used acc hl] at h
      exact ih _ _ _ h
    | some fn =>
      cases hu : used.contains fn with
      | true =>
        rw [reconcile_loop_cons_some_used rm o n0 rest used acc fn hl hu] at h
        simp only [Except.error.injEq] at h
        rw [← h]
        rfl
      | false =>
        rw [reconcile_loop_cons_some_new rm o n0 rest used acc fn hl hu] at h
        exact ih _ _ _ h

theorem reconcile_loop_congr (rm rm' : List (String × String))
    (hl : ∀ k, rm.lookup k = rm'.lookup k) :
    ∀ (pairs : List (String × String)) (used : List String)
      (acc : List (String × String)),
      reconcile_loop rm pairs used acc = reconcile_loop rm' pairs used acc := by
  intro pairs
  induction pairs with
  | nil => intro used acc; rw [reconcile_loop, reconcile_loop]
  | cons p rest ih =>
    intro used acc
    rcases p with ⟨o, n0⟩
    cases hlk : rm.lookup (pyLower (pyStrip n0)) with
    | none =>
      rw [reconcile_loop_cons_none rm o n0 rest used acc hlk,
        reconcile_loop_cons_none rm' o n0 rest used acc
          ((hl _).symm.trans hlk)]
      exact ih _ _
    | some fn =>
      have hlk' : rm'.lookup (pyLower (pyStrip n0)) = some fn :=
        (hl _).symm.trans hlk
      cases hu : used.contains fn with
      | true =>
        rw [reconcile_loop_cons_some_used rm o n0 rest used acc fn hlk hu,
          reconcile_loop_cons_some_used rm' o n0 rest used acc fn hlk' hu]
      | false =>
        rw [reconcile_loop_cons_some_new rm o n0 rest used acc fn hlk hu,
          reconcile_loop_cons_some_new rm' o n0 rest used acc fn hlk' hu]
        exact ih _ _

theorem reconcile_loop_used_conflict (rm : List (String × String)) :
    ∀ (pairs : List (String × String)) (used : List String)
      (acc : List (String × String)) (t : Nat) (c : String),
      t < pairs.length →
      rm.lookup (pyLower (pyStrip (pairs.getD t ("", "")).2)) = some c →
      c ∈ used →
      ∃ cErr, reconcile_loop rm pairs used acc
        = .error (.duplicateTarget cErr) := by
  intro pairs
  induction pairs with
  | nil => intro used acc t c ht; simp at ht
  | cons p rest ih =>
    intro used acc t c ht hlook hc
    rcases p with ⟨o, n0⟩
    cases t with
    | zero =>
      simp only [List.getD_cons_zero] at hlook
      rw [reconcile_loop_cons_some_used rm o n0 rest used acc c hlook
        (List.elem_iff.mpr hc)]
      exact ⟨c, rfl⟩
    | succ s =>
      simp only [List.getD_cons_succ] at hlook
      have hs : s < rest.length := by simpa using ht
      cases hl0 : rm.lookup (pyLower (pyStrip n0)) with
      | none =>
        rw [reconcile_loop_cons_none rm o n0 rest used acc hl0]
        exact ih _ _ s c hs hlook hc
      | some g =>
        cases hg : used.contains g with
        | true =>
          rw [reconcile_loop_cons_some_used rm o n0 rest used acc g hl0 hg]
          exact ⟨g, rfl⟩
        | false =>
          rw [reconcile_loop_cons_some_new rm o n0 rest used acc g hl0 hg]
          exact ih _ _ s c hs hlook (List.mem_append_left _ hc)

theorem reconcile_loop_two_hits (rm : List (String × String)) :
    ∀ (pairs : List (String × String)) (used : List String)
      (acc : List (String × String)) (i j : Nat) (c : String),
      i < j → j < pairs.length →
      rm.lookup (pyLower (pyStrip (pairs.getD i ("", "")).2)) = some c →
      rm.lookup (pyLower (pyStrip (pairs.getD j ("", "")).2)) = some c →
      ∃ cErr, reconcile_loop rm pairs used acc
        = .error (.duplicateTarget cErr) := by
  intro pairs
  induction pairs with
  | nil => intro used acc i j c hij hj; simp at hj
  | cons p rest ih =>
    intro used acc i j c hij hj hlooki hlookj
    rcases p with ⟨o, n0⟩
    cases i with
    | zero =>
      simp only [List.getD_cons_zero] at hlooki
      cases hc : used.contains c with
      | true =>
        rw [reconcile_loop_cons_some_used rm o n0 rest used acc c hlooki hc]
        exact ⟨c, rfl⟩
      | false =>
        rw [reconcile_loop_cons_some_new rm o n0 rest used acc c hlooki hc]
        cases j with
        | zero => omega
        | succ s =>
          simp only [List.getD_cons_succ] at hlookj
          exact reconcile_loop_used_conflict rm rest _ _ s c
            (by simpa using hj) hlookj (List.mem_append_right _ (by simp))
    | succ si =>
      cases j with
      | zero => omega
      | succ sj =>
        simp only [List.getD_cons_succ] at hlooki hlookj
        have hsj : sj < rest.length := by simpa using hj
        cases hl0 : rm.lookup (pyLower (pyStrip n0)) with
        | none =>
          rw [reconcile_loop_cons_none rm o n0 rest used acc hl0]
          exact ih _ _ si sj c (by omega) hsj hlooki hlookj
        | some g =>
          cases hg : used.contains g with
          | true =>
            rw [reconcile_loop_cons_some_used rm o n0 rest used acc g hl0 hg]
            exact ⟨g, rfl⟩
          | false =>
            rw [reconcile_loop_cons_some_new rm o n0 rest used acc g hl0 hg]
            exact ih _ _ si sj c (by omega) hsj hlooki hlookj

/-! ### The reconciliation claims -/

theorem normalize_columns_ok_build (obs : List String)
    (mapping : List (String × Aliases)) (rp lc : Bool)
    (rm : List (String × String))
    (hb : build_reverse_mapping mapping [] = .ok rm) :
    normalize_columns obs mapping rp lc
      = reconcile_loop rm (obs.zip (obs.map (pre_normalize rp lc))) [] [] := by
  simp only [normalize_columns, hb]

theorem normalize_columns_error_build (obs : List String)
    (mapping : List (String × Aliases)) (rp lc : Bool) (e : ReconcileError)
    (hb : build_reverse_mapping mapping [] = .error e) :
    normalize_columns obs mapping rp lc = .error e := by
  simp only [normalize_columns, hb]

theorem result_ambiguous_iff (mapping : List (String × Aliases))
    (obs : List String) (rp lc : Bool) :
    result_is_ambiguous (normalize_columns obs mapping rp lc) = true ↔
      ¬ (alias_keys mapping).Nodup := by
  cases hb : build_reverse_mapping mapping [] with
  | error e =>
    rw [normalize_columns_error_build obs mapping rp lc e hb]
    have hamb := build_reverse_mapping_error mapping [] e hb
    have hnotok : ¬ ((build_reverse_mapping mapping []).isOk = true) := by
      rw [hb]; simp [Except.isOk, Except.toBool]
    have hiff := build_reverse_mapping_isOk_iff mapping [] (by simp)
    constructor
    · intro _ hnd
      exact hnotok (hiff.mpr (by simpa using hnd))
    · intro _
      simpa [result_is_ambiguous] using hamb
  | ok rm =>
    have hok : (build_reverse_mapping mapping []).isOk = true := by
      rw [hb]; rfl
    have hnd : (alias_keys mapping).Nodup := by
      have := (build_reverse_mapping_isOk_iff mapping [] (by simp)).mp hok
      simpa using this
    rw [normalize_columns_ok_build obs mapping rp lc rm hb]
    constructor
    · intro hamb
      exfalso
      cases hloop : reconcile_loop rm
          (obs.zip (obs.map (pre_normalize rp lc))) [] [] with
      | ok r =>
        rw [hloop] at hamb
        exact absurd hamb (by simp [result_is_ambiguous])
      | error e =>
        rw [hloop] at hamb
        have := reconcile_loop_error rm _ _ _ e hloop
        simp only [result_is_ambiguous] at hamb
        rw [this] at hamb
        exact absurd hamb (by simp)
    · intro hcon
      exact absurd hnd hcon

theorem same_reconcile_outcome_refl
    (r : Except ReconcileError (List (String × String))) :
    same_reconcile_outcome r r := by
  cases r with
  | ok v => simp [same_reconcile_outcome]
  | error e => cases e <;> simp [same_reconcile_outcome]

theorem result_ambiguous_shape
    (r : Except ReconcileError (List (String × String)))
    (h : result_is_ambiguous r = true) :
    ∃ a b c, r = .error (.ambiguousMapping a b c) := by
  cases r with
  | ok v => simp [result_is_ambiguous] at h
  | error e =>
    cases e with
    | ambiguousMapping a b c => exact ⟨a, b, c, rfl⟩
    | duplicateTarget c =>
      simp [result_is_ambiguous, err_is_ambiguous] at h

theorem reverse_pairs_keys (m : List (String × Aliases)) :
    (reverse_pairs m).map Prod.fst = alias_keys m := by
  rw [reverse_pairs, alias_keys, List.map_flatMap]
  simp only [List.map_map]
  rfl

theorem zip_pre_normalize_getD (obs : List String) (rp lc : Bool) (t : Nat)
    (h : t < obs.length) :
    (obs.zip (obs.map (pre_normalize rp lc))).getD t ("", "")
      = (obs.getD t "", pre_normalize rp lc (obs.getD t "")) := by
  have hz : obs.zip (obs.map (pre_normalize rp lc))
      = obs.map (fun a => (a, pre_normalize rp lc a)) := by
    have h0 := List.zip_map' id (pre_normalize rp lc) obs
    rw [List.map_id] at h0
    simpa only [id_eq] using h0
  have h1 : t < (obs.map (fun a => (a, pre_normalize rp lc a))).length := by
    simpa using h
  rw [hz, getD_eq_get _ _ t h1, getD_eq_get obs "" t h]
  simp [List.get_eq_getElem, List.getElem_map]

/-- Counterexample to claim C6 as stated: in the mapping
`{"a": ["x", "x"]}` no two different canonical names share an alias, yet
the reconciler still raises the ambiguous-mapping error, because the code
raises whenever a lowered alias is already a key of the reverse mapping,
even when the earlier claim came from the same canonical name. -/
theorem claim6_counterexample :
    normalize_columns ["col"] [("a", Aliases.many ["x", "x"])] true true
      = .error (.ambiguousMapping "x" "a" "a") ∧
    ([("a", Aliases.many ["x", "x"])].all (fun p =>
      [("a", Aliases.many ["x", "x"])].all (fun q =>
        p.1 == q.1 ||
          p.2.toList.all (fun n =>
            q.2.toList.all (fun m => pyLower n != pyLower m))))) = true :=
  ⟨rfl, by decide⟩

/-- Claim C6 as amended: the reconciler fails with the ambiguous-mapping
error exactly when some normalized (lowercased) alias occurs more than once
across the mapping alias lists — including a repetition under a single
canonical name; the check depends only on the mapping, so the outcome of
the ambiguity check is identical for every observed-names input. -/
theorem claim6_ambiguity_precheck (mapping : List (String × Aliases))
    (obs obs' : List String) (rp lc rp' lc' : Bool) :
    (result_is_ambiguous (normalize_columns obs mapping rp lc) = true ↔
      ¬ (alias_keys mapping).Nodup) ∧
    result_is_ambiguous (normalize_columns obs mapping rp lc)
      = result_is_ambiguous (normalize_columns obs' mapping rp' lc') := by
  refine ⟨result_ambiguous_iff mapping obs rp lc, ?_⟩
  rw [Bool.eq_iff_iff]
  exact (result_ambiguous_iff mapping obs rp lc).trans
    (result_ambiguous_iff mapping obs' rp' lc').symm

/-- Claim C7: when a second observed column resolves (after normalization)
to a canonical name an earlier observed column already claimed, the
reconciler fails with the duplicate-target error; in particular reconciling
`["name","first_name"]` against `{"full_name": ["name","first_name"]}`
fails naming `"full_name"`. -/
theorem claim7_duplicate_target :
    (∀ (obs : List String) (mapping : List (String × Aliases))
        (rp lc : Bool) (rm : List (String × String)) (i j : Nat)
        (c : String),
      build_reverse_mapping mapping [] = .ok rm →
      i < j → j < obs.length →
      rm.lookup (normalize_observed rp lc (obs.getD i "")) = some c →
      rm.lookup (normalize_observed rp lc (obs.getD j "")) = some c →
      ∃ cErr, normalize_columns obs mapping rp lc
        = .error (.duplicateTarget cErr)) ∧
    normalize_columns ["name", "first_name"]
        [("full_name", Aliases.many ["name", "first_name"])] true true
      = .error (.duplicateTarget "full_name") := by
  constructor
  · intro obs mapping rp lc rm i j c hb hij hj hlooki hlookj
    rw [normalize_columns_ok_build obs mapping rp lc rm hb]
    have hlen : (obs.zip (obs.map (pre_normalize rp lc))).length
        = obs.length := by
      simp
    refine reconcile_loop_two_hits rm _ [] [] i j c hij ?_ ?_ ?_
    · rw [hlen]
      exact hj
    · rw [zip_pre_normalize_getD obs rp lc i (by omega)]
      exact hlooki
    · rw [zip_pre_normalize_getD obs rp lc j hj]
      exact hlookj
  · rfl

/-- Witness for C7 at the literal input the spec pins. -/
theorem claim7_duplicate_target_witness :
    ∃ cErr, normalize_columns ["name", "first_name"]
        [("full_name", Aliases.many ["name", "first_name"])] true true
      = .error (.duplicateTarget cErr) :=
  claim7_duplicate_target.1 ["name", "first_name"]
    [("full_name", Aliases.many ["name", "first_name"])] true true
    [("name", "full_name"), ("first_name", "full_name")] 0 1 "full_name"
    (by rfl) (by decide) (by decide) (by rfl) (by rfl)

/-- Counterexample to claim C8 as stated: two mappings that differ only in
the letter case of their canonical-name key produce different rename plans,
because the key is used verbatim as the rename target. -/
theorem claim8_counterexample :
    normalize_columns ["name"] [("FULL", Aliases.many ["name"])] true true
      = .ok [("name", "FULL")] ∧
    normalize_columns ["name"] [("full", Aliases.many ["name"])] true true
      = .ok [("name", "full")] ∧
    normalize_columns ["name"] [("FULL", Aliases.many ["name"])] true true
      ≠ normalize_columns ["name"] [("full", Aliases.many ["name"])]
          true true := by
  refine ⟨rfl, rfl, ?_⟩
  intro h
  rw [show normalize_columns ["name"] [("FULL", Aliases.many ["name"])]
      true true = .ok [("name", "FULL")] from rfl,
    show normalize_columns ["name"] [("full", Aliases.many ["name"])]
      true true = .ok [("name", "full")] from rfl] at h
  injection h with h2
  exact absurd h2 (by decide)

/-- Claim C8 as amended: the insertion order of a mapping does not affect
the reconciliation outcome — equal rename plans on success, a
duplicate-target failure naming the same canonical column, or an
ambiguous-mapping failure in both orders (only its reported name pair may
differ); the letter case of canonical keys, by contrast, does change the
rename targets. -/
theorem claim8_order_invariance (obs : List String) (rp lc : Bool)
    (m m' : List (String × Aliases)) (hperm : m.Perm m') :
    same_reconcile_outcome (normalize_columns obs m rp lc)
      (normalize_columns obs m' rp lc) := by
  have hak : (alias_keys m).Perm (alias_keys m') :=
    List.Perm.flatMap_right _ hperm
  by_cases hnd : (alias_keys m).Nodup
  · have hok : (build_reverse_mapping m []).isOk = true :=
      (build_reverse_mapping_isOk_iff m [] (by simp)).mpr (by simpa using hnd)
    have hok' : (build_reverse_mapping m' []).isOk = true :=
      (build_reverse_mapping_isOk_iff m' [] (by simp)).mpr
        (by simpa using hak.nodup_iff.mp hnd)
    obtain ⟨rm, hb⟩ : ∃ rm, build_reverse_mapping m [] = .ok rm := by
      cases hcase : build_reverse_mapping m [] with
      | ok rm => exact ⟨rm, rfl⟩
      | error e =>
        rw [hcase] at hok
        exact absurd hok (by simp [Except.isOk, Except.toBool])
    obtain ⟨rm', hb'⟩ : ∃ rm', build_reverse_mapping m' [] = .ok rm' := by
      cases hcase : build_reverse_mapping m' [] with
      | ok rm' => exact ⟨rm', rfl⟩
      | error e =>
        rw [hcase] at hok'
        exact absurd hok' (by simp [Except.isOk, Except.toBool])
    have hrm : rm = reverse_pairs m := by
      simpa using build_reverse_mapping_ok m [] rm hb
    have hrm' : rm' = reverse_pairs m' := by
      simpa using build_reverse_mapping_ok m' [] rm' hb'
    have hpermrm : rm.Perm rm' := by
      rw [hrm, hrm']
      exact List.Perm.flatMap_right _ hperm
    have hndrm : (rm.map Prod.fst).Nodup := by
      rw [hrm, reverse_pairs_keys]
      exact hnd
    have hlook : ∀ k, rm.lookup k = rm'.lookup k :=
      lookup_eq_of_perm rm rm' hpermrm hndrm
    rw [normalize_columns_ok_build obs m rp lc rm hb,
      normalize_columns_ok_build obs m' rp lc rm' hb',
      reconcile_loop_congr rm rm' hlook]
    exact same_reconcile_outcome_refl _
  · have h1 : result_is_ambiguous (normalize_columns obs m rp lc) = true :=
      (result_ambiguous_iff m obs rp lc).mpr hnd
    have h2 : result_is_ambiguous (normalize_columns obs m' rp lc) = true :=
      (result_ambiguous_iff m' obs rp lc).mpr
        (fun h => hnd (hak.nodup_iff.mpr h))
    obtain ⟨a, b, c, hr⟩ := result_ambiguous_shape _ h1
    obtain ⟨a2, b2, c2, hr2⟩ := result_ambiguous_shape _ h2
    rw [hr, hr2]
    trivial

/-- Witness for the amended C8 on a two-entry mapping and its reversal. -/
theorem claim8_order_invariance_witness :
    same_reconcile_outcome
      (normalize_columns ["x", "y"]
        [("a", Aliases.many ["x"]), ("b", Aliases.many ["y"])] true true)
      (normalize_columns ["x", "y"]
        [("b", Aliases.many ["y"]), ("a", Aliases.many ["x"])] true true) :=
  claim8_order_invariance ["x", "y"] true true
    [("a", Aliases.many ["x"]), ("b", Aliases.many ["y"])]
    [("b", Aliases.many ["y"]), ("a", Aliases.many ["x"])] (by decide)

/-! ### Lemmas about the name normalizer -/

theorem dropWhile_idem {α : Type} (p : α → Bool) (l : List α) :
    (l.dropWhile p).dropWhile p = l.dropWhile p := by
  induction l with
  | nil => rfl
  | cons a t ih =>
    by_cases hp : p a = true
    · rw [List.dropWhile_cons_of_pos hp]
      exact ih
    · rw [List.dropWhile_cons_of_neg (by simp [hp]),
        List.dropWhile_cons_of_neg (by simp [hp])]

theorem dropWhile_prefix_eq {α : Type} (p : α → Bool) (y t : List α)
    (h : ((y ++ t).dropWhile p) = y ++ t) : y.dropWhile p = y := by
  cases y with
  | nil => rfl
  | cons a ys =>
    by_cases hp : p a = true
    · exfalso
      rw [List.cons_append, List.dropWhile_cons_of_pos hp] at h
      have hlen := congrArg List.length h
      have hle := (List.dropWhile_sublist (l := ys ++ t) p).length_le
      simp only [List.length_cons, List.length_append] at hlen hle
      omega
    · exact List.dropWhile_cons_of_neg (by simp [hp])

theorem stripList_prefix_of_dropWhile (l : List Char) :
    stripList l <+: l.dropWhile pyIsSpace := by
  rw [stripList]
  refine List.reverse_suffix.mp ?_
  rw [List.reverse_reverse]
  exact List.dropWhile_suffix _

theorem stripList_dropWhile (l : List Char) :
    (stripList l).dropWhile pyIsSpace = stripList l := by
  obtain ⟨t, ht⟩ := stripList_prefix_of_dropWhile l
  refine dropWhile_prefix_eq pyIsSpace _ t ?_
  rw [ht]
  exact dropWhile_idem pyIsSpace l

theorem stripList_idem (l : List Char) :
    stripList (stripList l) = stripList l := by
  show (((stripList l).dropWhile pyIsSpace).reverse.dropWhile
      pyIsSpace).reverse = stripList l
  rw [stripList_dropWhile]
  show (((l.dropWhile pyIsSpace).reverse.dropWhile
      pyIsSpace).reverse.reverse.dropWhile pyIsSpace).reverse = stripList l
  rw [List.reverse_reverse, dropWhile_idem]
  rfl

theorem mem_stripList (l : List Char) (c : Char) (h : c ∈ stripList l) :
    c ∈ l := by
  simp only [stripList, List.mem_reverse] at h
  have h1 : c ∈ (l.dropWhile pyIsSpace).reverse :=
    (List.dropWhile_sublist _).subset h
  rw [List.mem_reverse] at h1
  exact (List.dropWhile_sublist _).subset h1

theorem replaceRunsAux_not_punct (repl : List Char)
    (hrepl : ∀ c ∈ repl, isPunctChar c = false) :
    ∀ (l : List Char) (b : Bool) (c : Char),
      c ∈ replaceRunsAux repl l b → isPunctChar c = false := by
  intro l
  induction l with
  | nil => intro b c hc; simp [replaceRunsAux] at hc
  | cons a t ih =>
    intro b c hc
    rw [replaceRunsAux] at hc
    by_cases hp : isPunctChar a = true
    · rw [if_pos hp] at hc
      cases b with
      | true =>
        rw [if_pos rfl] at hc
        exact ih true c hc
      | false =>
        rw [if_neg (by simp)] at hc
        rcases List.mem_append.mp hc with h1 | h2
        · exact hrepl c h1
        · exact ih true c h2
    · rw [if_neg hp] at hc
      rcases List.mem_cons.mp hc with h1 | h2
      · subst h1
        simpa using hp
      · exact ih false c h2

theorem replaceRunsAux_id (repl : List Char) :
    ∀ (l : List Char) (b : Bool),
      (∀ c ∈ l, isPunctChar c = false) →
      replaceRunsAux repl l b = l := by
  intro l
  induction l with
  | nil => intro b _; rfl
  | cons a t ih =>
    intro b h
    rw [replaceRunsAux]
    have ha : isPunctChar a = false := h a (by simp)
    rw [if_neg (by simp [ha])]
    rw [ih false (fun c hc => h c (List.mem_cons_of_mem _ hc))]

theorem pyCharLower_idem (c : Char) :
    pyCharLower (pyCharLower c) = pyCharLower c := by
  cases h : upperLowerTable.lookup c with
  | none => simp [pyCharLower, h]
  | some v =>
    have hv : v ∈ upperLowerTable.map Prod.snd :=
      List.mem_map_of_mem Prod.snd (lookup_mem upperLowerTable c v h)
    have hall : ∀ x ∈ upperLowerTable.map Prod.snd,
        upperLowerTable.lookup x = none := by decide
    simp [pyCharLower, h, hall v hv]

theorem pyCharLower_not_punct (c : Char) (hc : isPunctChar c = false) :
    isPunctChar (pyCharLower c) = false := by
  cases h : upperLowerTable.lookup c with
  | none => simpa [pyCharLower, h] using hc
  | some v =>
    have hv : v ∈ upperLowerTable.map Prod.snd :=
      List.mem_map_of_mem Prod.snd (lookup_mem upperLowerTable c v h)
    have hall : ∀ x ∈ upperLowerTable.map Prod.snd,
        isPunctChar x = false := by decide
    simp [pyCharLower, h, hall v hv]

theorem pyCharLower_space (c : Char) :
    pyIsSpace (pyCharLower c) = pyIsSpace c := by
  cases h : upperLowerTable.lookup c with
  | none => simp [pyCharLower, h]
  | some v =>
    have hmem := lookup_mem upperLowerTable c v h
    have hkey : c ∈ upperLowerTable.map Prod.fst :=
      List.mem_map_of_mem Prod.fst hmem
    have hv : v ∈ upperLowerTable.map Prod.snd :=
      List.mem_map_of_mem Prod.snd hmem
    have hkeys : ∀ x ∈ upperLowerTable.map Prod.fst,
        pyIsSpace x = false := by decide
    have hvals : ∀ x ∈ upperLowerTable.map Prod.snd,
        pyIsSpace x = false := by decide
    simp [pyCharLower, h, hvals v hv, hkeys c hkey]

theorem map_lower_idem (l : List Char) :
    (l.map pyCharLower).map pyCharLower = l.map pyCharLower := by
  rw [List.map_map]
  exact List.map_congr_left (fun c _ => pyCharLower_idem c)

theorem dropWhile_space_map_lower (l : List Char) :
    (l.map pyCharLower).dropWhile pyIsSpace
      = (l.dropWhile pyIsSpace).map pyCharLower := by
  rw [List.dropWhile_map]
  have hps : (pyIsSpace ∘ pyCharLower) = pyIsSpace := funext pyCharLower_space
  rw [hps]

theorem stripList_map_lower (l : List Char) :
    stripList (l.map pyCharLower) = (stripList l).map pyCharLower := by
  show (((l.map pyCharLower).dropWhile pyIsSpace).reverse.dropWhile
      pyIsSpace).reverse = (stripList l).map pyCharLower
  rw [dropWhile_space_map_lower, ← List.map_reverse,
    dropWhile_space_map_lower, ← List.map_reverse]
  rfl

theorem pyStrip_pyStrip (s : String) : pyStrip (pyStrip s) = pyStrip s := by
  show String.mk (stripList (stripList s.data)) = String.mk (stripList s.data)
  rw [stripList_idem]

theorem pyLower_pyLower (s : String) : pyLower (pyLower s) = pyLower s := by
  show String.mk ((s.data.map pyCharLower).map pyCharLower)
    = String.mk (s.data.map pyCharLower)
  rw [map_lower_idem]

theorem pyLower_pyStrip (s : String) :
    pyLower (pyStrip s) = pyStrip (pyLower s) := by
  show String.mk ((stripList s.data).map pyCharLower)
    = String.mk (stripList (s.data.map pyCharLower))
  rw [stripList_map_lower]

theorem strip_punctuation_chars (text repl : String)
    (hrepl : ∀ c ∈ repl.data, isPunctChar c = false) :
    ∀ c ∈ (strip_punctuation text repl).data, isPunctChar c = false := by
  intro c hc
  have hc2 : c ∈ replaceRunsAux repl.data text.data false :=
    mem_stripList _ c hc
  exact replaceRunsAux_not_punct repl.data hrepl text.data false c hc2

theorem strip_punctuation_id (s repl : String)
    (hs : ∀ c ∈ s.data, isPunctChar c = false) :
    strip_punctuation s repl = pyStrip s := by
  show pyStrip (String.mk (replaceRunsAux repl.data s.data false)) = pyStrip s
  rw [replaceRunsAux_id repl.data s.data false hs]

theorem normalize_chars_not_punct (x : String) (fc : Bool) (repl : String)
    (hrepl : ∀ c ∈ repl.data, isPunctChar c = false) :
    ∀ c ∈ (normalize x fc true repl).data, isPunctChar c = false := by
  intro c hc
  cases fc with
  | true =>
    have h1 : c ∈ (pyLower (strip_punctuation x repl)).data :=
      mem_stripList _ c hc
    obtain ⟨d, hd, hdc⟩ := List.mem_map.mp h1
    rw [← hdc]
    exact pyCharLower_not_punct d (strip_punctuation_chars x repl hrepl d hd)
  | false =>
    have h1 : c ∈ (strip_punctuation x repl).data := mem_stripList _ c hc
    exact strip_punctuation_chars x repl hrepl c h1

/-- Counterexample to claim C10 as stated: with the replacement string
`"x!"` (a word character followed by punctuation), normalizing twice
differs from normalizing once, because the second pass replaces the
punctuation run the first pass inserted and so grows the text again. -/
theorem claim10_counterexample :
    normalize "a?b" false true "x!" = "ax!b" ∧
    normalize (normalize "a?b" false true "x!") false true "x!" = "axx!b" ∧
    normalize (normalize "a?b" false true "x!") false true "x!"
      ≠ normalize "a?b" false true "x!" := by
  refine ⟨by decide, by decide, by decide⟩

/-- Claim C10 as amended: the name normalizer is idempotent for every
input and every combination of the fold-case / strip-punctuation options,
provided the replacement string contains no punctuation characters (in
particular for the default `""` and the customary `"_"`). -/
theorem claim10_normalize_idempotent (x : String)
    (foldCase stripPunct : Bool) (replacement : String)
    (hrepl : ∀ c ∈ replacement.data, isPunctChar c = false) :
    normalize (normalize x foldCase stripPunct replacement)
        foldCase stripPunct replacement
      = normalize x foldCase stripPunct replacement := by
  cases stripPunct with
  | true =>
    have hchars := normalize_chars_not_punct x foldCase replacement hrepl
    have hspy : strip_punctuation (normalize x foldCase true replacement)
        replacement = pyStrip (normalize x foldCase true replacement) :=
      strip_punctuation_id _ _ hchars
    cases foldCase with
    | true =>
      show pyStrip (pyLower (strip_punctuation
          (normalize x true true replacement) replacement))
        = normalize x true true replacement
      rw [hspy]
      have hfix : pyStrip (normalize x true true replacement)
          = normalize x true true replacement := by
        show pyStrip (pyStrip (pyLower (strip_punctuation x replacement)))
          = pyStrip (pyLower (strip_punctuation x replacement))
        rw [pyStrip_pyStrip]
      rw [hfix]
      have hlow : pyLower (normalize x true true replacement)
          = normalize x true true replacement := by
        show pyLower (pyStrip (pyLower (strip_punctuation x replacement)))
          = pyStrip (pyLower (strip_punctuation x replacement))
        rw [pyLower_pyStrip, pyLower_pyLower]
      rw [hlow, hfix]
    | false =>
      show pyStrip (strip_punctuation
          (normalize x false true replacement) replacement)
        = normalize x false true replacement
      rw [hspy]
      have hfix : pyStrip (normalize x false true replacement)
          = normalize x false true replacement := by
        show pyStrip (pyStrip (strip_punctuation x replacement))
          = pyStrip (strip_punctuation x replacement)
        rw [pyStrip_pyStrip]
      rw [hfix, hfix]
  | false =>
    cases foldCase with
    | true =>
      show pyStrip (pyLower (normalize x true false replacement))
        = normalize x true false replacement
      have hlow : pyLower (normalize x true false replacement)
          = normalize x true false replacement := by
        show pyLower (pyStrip (pyLower x)) = pyStrip (pyLower x)
        rw [pyLower_pyStrip, pyLower_pyLower]
      rw [hlow]
      show pyStrip (pyStrip (pyLower x)) = pyStrip (pyLower x)
      rw [pyStrip_pyStrip]
    | false =>
      show pyStrip (pyStrip x) = pyStrip x
      rw [pyStrip_pyStrip]

/-- Witness for the amended C10 at a concrete input with the default
replacement. -/
theorem claim10_normalize_idempotent_witness :
    normalize (normalize "  Hello, World!  " true true "") true true ""
      = normalize "  Hello, World!  " true true "" :=
  claim10_normalize_idempotent "  Hello, World!  " true true "" (by decide)

end RPAToolkit
